import Mathlib

/-!
Verification development for the gigaam-android-ime native core
(`src/native/gigaam_core/src/gigaam.rs` and `src/native/gigaam_core/src/lib.rs`).

The Rust code is shallowly embedded as follows:

* `f32` values are idealised as rational numbers (`ℚ`).  No `NaN`/infinity
  values arise on the modelled paths, and for non-`NaN` floats the order used
  by `partial_cmp` agrees with the numeric order, so `ℚ` with its decidable
  order is a faithful model of the comparisons the code performs.
* Transcendental library calls (`cos`, `log10`, `10^x`, the FFT plan of
  `rustfft`, and the bit-level `f32::to_bits` conversion) are external
  collaborators; they are passed in as abstract function parameters so that
  every theorem holds for the real functions in particular.
* The natural logarithm applied to the clamped mel energies is modelled by
  `Real.log`.
* A logits tensor of shape `(1, T, V)` is modelled by its (only) batch-0
  slice: a list of `T` frames, each a list of `V` rational logits.
* Fallible Rust functions returning `anyhow::Result` are modelled with
  `Option` (`none` = error).
-/

namespace GigaamCore

/-! ## CTC greedy decoding (`ctc_greedy_decode_ids`) -/

/-- One step of `Iterator::max_by` over the enumerated frame, mirroring the
Rust reduction `if f(&x, &y).is_gt() { x } else { y }`: the incumbent
`(bi, bv)` is kept only when its value is strictly greater than the candidate,
so on ties the later (higher) index wins. -/
def argmaxGo : List ℚ → ℕ → ℚ → ℕ → ℕ
  | [], bi, _, _ => bi
  | v :: rest, bi, bv, i =>
    if bv > v then argmaxGo rest bi bv (i + 1) else argmaxGo rest i v (i + 1)

/-- The index chosen for one logits frame:
`frame.iter().enumerate().max_by(..).map(|(idx, _)| idx).unwrap_or(blank_idx)`. -/
def bestIdx (frame : List ℚ) (blank_idx : ℕ) : ℕ :=
  match frame with
  | [] => blank_idx
  | v :: rest => argmaxGo rest 0 v 1

/-- The decoding loop of `ctc_greedy_decode_ids`: `prev` is the previously
chosen index (initially the blank id); a chosen index is emitted exactly when
it differs from the blank id and from `prev`. -/
def ctcLoop (blank_idx : ℕ) : List (List ℚ) → ℕ → List ℕ
  | [], _ => []
  | frame :: rest, prev =>
    let b := bestIdx frame blank_idx
    if b ≠ blank_idx ∧ b ≠ prev then b :: ctcLoop blank_idx rest b
    else ctcLoop blank_idx rest b

/-- Models `ctc_greedy_decode_ids(logits, encoded_len, blank_idx)`; `logits` is the
batch-0 slice (time-major list of frames).  The loop runs over
`usable_steps = encoded_len.min(time_steps)` frames. -/
def ctc_greedy_decode_ids (logits : List (List ℚ)) (encoded_len blank_idx : ℕ) :
    List ℕ :=
  ctcLoop blank_idx (logits.take (min encoded_len logits.length)) blank_idx

/-- The list of indices chosen at the usable time steps (one per frame). -/
def chosenSeq (logits : List (List ℚ)) (encoded_len blank_idx : ℕ) : List ℕ :=
  (logits.take (min encoded_len logits.length)).map (fun f => bestIdx f blank_idx)

/-- The CTC collapse rule exactly as the spec words it: pair every chosen
index with its predecessor (the pre-first-step predecessor being the blank
id) and keep it iff it differs from the blank id and from that predecessor. -/
def collapseSpec (blank_idx : ℕ) (chosen : List ℕ) : List ℕ :=
  (chosen.zip (blank_idx :: chosen)).filterMap
    (fun cp => if cp.1 ≠ blank_idx ∧ cp.1 ≠ cp.2 then some cp.1 else none)

/-- The worked example of the spec: six frames over a vocabulary of size 4,
choosing labels 1, 1, blank, 1, 2, 2 (blank id 3). -/
def exampleLogits : List (List ℚ) :=
  [[0, 5, 1, -1],
   [0, 4, 1, -1],
   [0, 1, 0, 3],
   [0, 6, 0, -1],
   [0, 1, 5, -1],
   [0, 1, 4, -1]]

/-! ## Vocabulary parsing (`parse_vocab_content`) -/

/-- The word-boundary marker character U+2581. -/
def boundaryMarker : Char := '▁'

/-- Models `token.replace('\u{2581}', " ")`: the marker is a single char replaced by
a single space, so this is a character map. -/
def replaceMarker (s : String) : String :=
  ⟨s.data.map (fun c => if c = boundaryMarker then ' ' else c)⟩

def splitLinesGo : List Char → List Char → List (List Char)
  | [], acc => [acc.reverse]
  | c :: rest, acc =>
    if c = '\n' then acc.reverse :: splitLinesGo rest []
    else splitLinesGo rest (c :: acc)

/-- Models `content.lines()`: split on the newline character.  (Rust's `lines` also
drops a final empty segment and a trailing CR; both are immaterial here
because the parser skips lines that are empty after `trim_end`.) -/
def splitLines (s : String) : List (List Char) :=
  splitLinesGo s.data []

/-- Models `str::trim_end`: drop trailing whitespace. -/
def trimEndChars (cs : List Char) : List Char :=
  (cs.reverse.dropWhile Char.isWhitespace).reverse

/-- Models `str::trim`: drop leading and trailing whitespace. -/
def trimChars (cs : List Char) : List Char :=
  (trimEndChars cs).dropWhile Char.isWhitespace

def rsplitSpaceGo : List Char → List Char → Option (List Char × List Char)
  | [], _ => none
  | c :: rest, acc =>
    if c = ' ' then some (rest.reverse, acc) else rsplitSpaceGo rest (c :: acc)

/-- Models `line.rsplit_once(' ')`: split at the last space character. -/
def rsplitOnceSpace (cs : List Char) : Option (List Char × List Char) :=
  rsplitSpaceGo cs.reverse []

def parseNatGo : List Char → ℕ → Option ℕ
  | [], acc => some acc
  | c :: rest, acc =>
    if c.isDigit then parseNatGo rest (acc * 10 + (c.toNat - '0'.toNat)) else none

/-- Models `id_str.parse::<usize>()` idealised to unbounded naturals: a nonempty
digit string parses, anything else fails. -/
def parseNatChars : List Char → Option ℕ
  | [] => none
  | c :: rest => parseNatGo (c :: rest) 0

/-- The line loop of `parse_vocab_content`, carrying the accumulated entries
(with the marker already replaced), the running `max_id` and the last seen
`<blk>` id. -/
def parseVocabGo : List (List Char) → List (ℕ × String) → ℕ → Option ℕ →
    Option (List (ℕ × String) × ℕ × Option ℕ)
  | [], entries, maxId, blank => some (entries, maxId, blank)
  | l :: rest, entries, maxId, blank =>
    let line := trimEndChars l
    if line = [] then parseVocabGo rest entries maxId blank
    else
      match rsplitOnceSpace line with
      | none => none
      | some (tok, idStr) =>
        match parseNatChars (trimChars idStr) with
        | none => none
        | some id =>
          parseVocabGo rest (entries ++ [(id, replaceMarker ⟨tok⟩)]) (max maxId id)
            (if (⟨tok⟩ : String) = "<blk>" then some id else blank)

/-- Models `parse_vocab_content`: run the line loop, require a `<blk>` id, then fill
a dense vector of `max_id + 1` empty strings with the parsed entries. -/
def parse_vocab_content (content : String) : Option (List String × ℕ) :=
  match parseVocabGo (splitLines content) [] 0 none with
  | none => none
  | some (entries, maxId, blank) =>
    match blank with
    | none => none
    | some b =>
      some (entries.foldl (fun v e => v.set e.1 e.2) (List.replicate (maxId + 1) ""), b)

/-- The spec's vocabulary example (with U+2581 before `hello`). -/
def exampleVocabContent : String := "<unk> 0\n▁hello 1\nworld 2\n<blk> 3\n"

/-! ## Token ids to text (`decode_token_ids_to_text`, `DECODE_SPACE_RE`)

The regex `\A\s|\s\B|(\s)\b` with the replacement closure (group 1 matched ⇒
`" "`, else `""`) acts on one whitespace character per match.  Since the
character preceding the position after a matched whitespace is that
whitespace itself (not a word character), the boundary assertions only depend
on the following character: `\s\B` matches a whitespace followed by a
non-word character or the end of the string, `(\s)\b` matches a whitespace
followed by a word character, and `\A\s` (tried first) matches a whitespace
at the very start.  The engine's character classes (`\s`, `\w`) are passed in
as abstract predicates `isSpace`/`isWord`. -/

def nextIsWord (isWord : Char → Bool) : List Char → Bool
  | [] => false
  | d :: _ => isWord d

/-- Models `DECODE_SPACE_RE.replace_all` on the concatenated token text, scanning
left to right; `atStart` records whether the scan is at position 0. -/
def regexNormalizeGo (isWord isSpace : Char → Bool) : Bool → List Char → List Char
  | _, [] => []
  | atStart, c :: rest =>
    if isSpace c then
      if atStart then regexNormalizeGo isWord isSpace false rest
      else if nextIsWord isWord rest then
        ' ' :: regexNormalizeGo isWord isSpace false rest
      else regexNormalizeGo isWord isSpace false rest
    else c :: regexNormalizeGo isWord isSpace false rest

/-- The concatenation step of `decode_token_ids_to_text`: ids outside the
vocabulary range are silently skipped (`filter_map(|&id| vocab.get(id))`). -/
def concatTokens (token_ids : List ℕ) (vocab : List String) : List Char :=
  (token_ids.filterMap (fun id => vocab[id]?)).foldl (fun cs t => cs ++ t.data) []

/-- Models `decode_token_ids_to_text(token_ids, vocab)`. -/
def decode_token_ids_to_text (isWord isSpace : Char → Bool)
    (token_ids : List ℕ) (vocab : List String) : String :=
  ⟨regexNormalizeGo isWord isSpace true (concatTokens token_ids vocab)⟩

/-- The claim's three-way spacing rule, exactly as worded: a whitespace at
the very start is stripped; a whitespace immediately before a non-word
character is stripped; a whitespace before a word boundary (i.e. followed by
a word character, the preceding character being the whitespace itself) is
collapsed into a single literal space.  A whitespace at the end of the string
is covered by none of the three rules and is kept. -/
def claimNormalizeGo (isWord isSpace : Char → Bool) : Bool → List Char → List Char
  | _, [] => []
  | atStart, c :: rest =>
    if isSpace c then
      if atStart then claimNormalizeGo isWord isSpace false rest
      else if rest.isEmpty then c :: claimNormalizeGo isWord isSpace false rest
      else if nextIsWord isWord rest then
        ' ' :: claimNormalizeGo isWord isSpace false rest
      else claimNormalizeGo isWord isSpace false rest
    else c :: claimNormalizeGo isWord isSpace false rest

/-- Decoding as the claim describes it: concatenate, then apply the literal
three-way rule. -/
def decodeTokenIdsClaim (isWord isSpace : Char → Bool)
    (token_ids : List ℕ) (vocab : List String) : String :=
  ⟨claimNormalizeGo isWord isSpace true (concatTokens token_ids vocab)⟩

/-- The amended spacing rule: as the claim's three rules, except that a
whitespace character at the end of the string (equally not followed by a word
character) is also stripped. -/
def amendedNormalizeGo (isWord isSpace : Char → Bool) : Bool → List Char → List Char
  | _, [] => []
  | atStart, c :: rest =>
    if isSpace c then
      if atStart then amendedNormalizeGo isWord isSpace false rest
      else if rest.isEmpty then amendedNormalizeGo isWord isSpace false rest
      else if nextIsWord isWord rest then
        ' ' :: amendedNormalizeGo isWord isSpace false rest
      else amendedNormalizeGo isWord isSpace false rest
    else c :: amendedNormalizeGo isWord isSpace false rest

/-- Decoding per the amended claim. -/
def decodeTokenIdsAmended (isWord isSpace : Char → Bool)
    (token_ids : List ℕ) (vocab : List String) : String :=
  ⟨amendedNormalizeGo isWord isSpace true (concatTokens token_ids vocab)⟩

/-- ASCII word characters (`\w` restricted to the witnesses' alphabet). -/
def wordCharB (c : Char) : Bool := c.isAlphanum || c = '_'

/-- Whitespace characters for the witnesses. -/
def spaceCharB (c : Char) : Bool := c.isWhitespace

/-! ## Acoustic configuration and frontend construction
(`GigaamConfig`, `GigaamFrontend::from_config`)

The transcendental helpers are abstracted: `cos2pi x` stands for
`cos(2π·x)` (the Hann formula calls `cos` at `2π·n/(win_length−1)`),
`log10f` for `log10`, `exp10f` for `10^x`, and `quantF` for
`quantize_to_bf16` seen as a map on the idealised values. -/

structure GigaamConfig where
  sample_rate : ℕ
  n_mels : ℕ
  win_length : ℕ
  hop_length : ℕ
  n_fft : ℕ
  center : Bool
  mel_scale : String
  subsampling_factor : ℕ
  model_name : String

/-- ASCII lower-casing of one character (for `eq_ignore_ascii_case`). -/
def asciiLower (c : Char) : Char :=
  if 'A' ≤ c ∧ c ≤ 'Z' then Char.ofNat (c.toNat + 32) else c

/-- Models `config.mel_scale.eq_ignore_ascii_case("htk")`. -/
def melScaleIsHtk (s : String) : Bool :=
  s.data.map asciiLower == ['h', 't', 'k']

def startsWithChars : List Char → List Char → Bool
  | _, [] => true
  | [], _ :: _ => false
  | c :: cs, d :: ds => c == d && startsWithChars cs ds

/-- Models `haystack.contains(needle)` on character lists. -/
def containsChars : List Char → List Char → Bool
  | [], needle => needle.isEmpty
  | c :: rest, needle => startsWithChars (c :: rest) needle || containsChars rest needle

/-- Models `config.model_name.contains("v3") || (!config.center && config.n_fft == 320)`. -/
def quantizeFlag (config : GigaamConfig) : Bool :=
  containsChars config.model_name.data ['v', '3'] ||
    (!config.center && config.n_fft == 320)

/-- Models `build_hann_window(win_length, quantize_bf16)`. -/
def build_hann_window (cos2pi quantF : ℚ → ℚ) (win_length : ℕ) (q : Bool) :
    List ℚ :=
  if win_length = 1 then [1]
  else
    (List.range win_length).map (fun (n : ℕ) =>
      let v : ℚ := 1 / 2 - 1 / 2 * cos2pi ((n : ℚ) / ((win_length : ℚ) - 1))
      if q then quantF v else v)

/-- Models `hz_to_mel_htk`. -/
def hz_to_mel_htk (log10f : ℚ → ℚ) (hz : ℚ) : ℚ :=
  2595 * log10f (1 + hz / 700)

/-- Models `mel_to_hz_htk`. -/
def mel_to_hz_htk (exp10f : ℚ → ℚ) (mel : ℚ) : ℚ :=
  700 * (exp10f (mel / 2595) - 1)

/-- The `hz_points` of `build_mel_filterbank`: `n_mels + 2` mel-equidistant
points between 0 Hz and Nyquist, mapped back to Hz. -/
def melHzPoints (exp10f log10f : ℚ → ℚ) (sample_rate n_mels : ℕ) : List ℚ :=
  let mel_min := hz_to_mel_htk log10f 0
  let mel_max := hz_to_mel_htk log10f ((sample_rate : ℚ) / 2)
  ((List.range (n_mels + 2)).map
      (fun (i : ℕ) =>
        mel_min + (mel_max - mel_min) * ((i : ℚ) / ((n_mels : ℚ) + 1)))).map
    (mel_to_hz_htk exp10f)

/-- The `fft_freqs` of `build_mel_filterbank`. -/
def fftFreqs (sample_rate n_fft : ℕ) : List ℚ :=
  (List.range (n_fft / 2 + 1)).map
    (fun (bin : ℕ) => (bin : ℚ) * (sample_rate : ℚ) / (n_fft : ℚ))

/-- The triangular filter weight at one FFT bin frequency. -/
def melWeight (left center right freq : ℚ) : ℚ :=
  if left ≤ freq ∧ freq ≤ center then (freq - left) / (center - left)
  else if center < freq ∧ freq ≤ right then (right - freq) / (right - center)
  else 0

/-- The inner bin loop of `build_mel_filterbank` for one mel filter,
generalised over the list of bin indices it visits (the source visits
`0..n_freq_bins`): positive weights are written at `bin * n_mels + mel`,
quantized when `q` is set. -/
def fbRowGo (n_mels mel : ℕ) (quantF : ℚ → ℚ) (q : Bool) (left center right : ℚ)
    (freqs : List ℚ) (bins : List ℕ) (fb : List ℚ) : List ℚ :=
  bins.foldl (fun acc bin =>
    let w := melWeight left center right (freqs.getD bin 0)
    if 0 < w then acc.set (bin * n_mels + mel) (if q then quantF w else w)
    else acc) fb

/-- Models `build_mel_filterbank(sample_rate, n_fft, n_mels, quantize_bf16)`:
errors (`none`) as soon as a filter's center does not lie strictly between
its edges. -/
def build_mel_filterbank (exp10f log10f quantF : ℚ → ℚ)
    (sample_rate n_fft n_mels : ℕ) (q : Bool) : Option (List ℚ) :=
  let hz_points := melHzPoints exp10f log10f sample_rate n_mels
  let freqs := fftFreqs sample_rate n_fft
  (List.range n_mels).foldlM (m := Option)
    (fun fb mel =>
      let left := hz_points.getD mel 0
      let center := hz_points.getD (mel + 1) 0
      let right := hz_points.getD (mel + 2) 0
      if center ≤ left ∨ right ≤ center then none
      else some (fbRowGo n_mels mel quantF q left center right freqs
        (List.range freqs.length) fb))
    (List.replicate ((n_fft / 2 + 1) * n_mels) 0)

structure GigaamFrontend where
  n_mels : ℕ
  win_length : ℕ
  hop_length : ℕ
  n_fft : ℕ
  center : Bool
  hann_window : List ℚ
  mel_filterbank : List ℚ

/-- Models `GigaamFrontend::from_config`: the validation chain followed by window
and filterbank construction. -/
def from_config (exp10f log10f cos2pi quantF : ℚ → ℚ) (config : GigaamConfig) :
    Option GigaamFrontend :=
  if config.hop_length = 0 then none
  else if config.win_length = 0 then none
  else if config.n_fft = 0 then none
  else if config.n_fft < config.win_length then none
  else if melScaleIsHtk config.mel_scale = false then none
  else if config.center then none
  else
    match build_mel_filterbank exp10f log10f quantF config.sample_rate
        config.n_fft config.n_mels (quantizeFlag config) with
    | none => none
    | some fb =>
      some ⟨config.n_mels, config.win_length, config.hop_length, config.n_fft,
        config.center,
        build_hann_window cos2pi quantF config.win_length (quantizeFlag config),
        fb⟩

/-- The sample-rate gate of `GigaamModel::new` (checked before the frontend
is built) followed by `from_config`. -/
def modelNewFrontend (exp10f log10f cos2pi quantF : ℚ → ℚ)
    (config : GigaamConfig) : Option GigaamFrontend :=
  if config.sample_rate ≠ 16000 then none
  else from_config exp10f log10f cos2pi quantF config

/-- Valid mel filter geometry: every filter's center lies strictly between
its edges. -/
def melGeometryOk (exp10f log10f : ℚ → ℚ) (sample_rate n_mels : ℕ) : Prop :=
  ∀ mel < n_mels,
    (melHzPoints exp10f log10f sample_rate n_mels).getD mel 0 <
        (melHzPoints exp10f log10f sample_rate n_mels).getD (mel + 1) 0 ∧
      (melHzPoints exp10f log10f sample_rate n_mels).getD (mel + 1) 0 <
        (melHzPoints exp10f log10f sample_rate n_mels).getD (mel + 2) 0

instance melGeometryOk.instDecidable (exp10f log10f : ℚ → ℚ)
    (sample_rate n_mels : ℕ) :
    Decidable (melGeometryOk exp10f log10f sample_rate n_mels) := by
  unfold melGeometryOk
  infer_instance

/-- A small valid configuration used by the witnesses (the abstract
`log10`/`10^x` collaborators are instantiated with the identity, under which
the hz points are strictly increasing). -/
def cfgWitnessOk : GigaamConfig :=
  ⟨16000, 1, 2, 1, 2, false, "htk", 4, "m"⟩

/-- A configuration violating `n_fft ≥ win_length`. -/
def cfgWitnessBad : GigaamConfig :=
  ⟨16000, 1, 2, 1, 1, false, "htk", 4, "m"⟩

/-! ## Coefficient quantization (`quantize_to_bf16`) -/

/-- The bit-level core of `quantize_to_bf16`: `value.to_bits() & 0xFFFF_0000`
on the 32-bit representation, modelled on `ℕ`. -/
def bf16MaskBits (bits : ℕ) : ℕ :=
  Nat.land bits 0xFFFF0000

/-! ## Feature extraction (`GigaamFrontend::extract_features`)

The forward FFT plan of `rustfft` is an external collaborator, abstracted as
a function `fft` on complex buffers (pairs of rational real/imaginary
parts).  The features vector is modelled exactly as in the source: a flat
buffer of `n_mels * frame_count` entries initialised to zero and written at
`mel_idx * frame_count + frame_idx`; the `Array3` reshape to
`(1, n_mels, F)` reads entry `(0, mel, t)` at flat index `mel * F + t`. -/

def MEL_MIN_CLAMP : ℚ := 1 / 10 ^ 9

def MEL_MAX_CLAMP : ℚ := 10 ^ 9

/-- Models `f32::clamp(min, max)` for the (idealised) total order on `ℚ`. -/
def clampQ (x : ℚ) : ℚ :=
  if x < MEL_MIN_CLAMP then MEL_MIN_CLAMP
  else if MEL_MAX_CLAMP < x then MEL_MAX_CLAMP
  else x

/-- The windowed, zero-padded frame starting at `t * hop_length`: the first
`win_length` FFT entries are `samples[start + i] * hann_window[i]`, the rest
are 0. -/
def windowedFrame (fe : GigaamFrontend) (samples : List ℚ) (t : ℕ) : List ℚ :=
  (List.range fe.n_fft).map (fun (i : ℕ) =>
    if i < fe.win_length then
      samples.getD (t * fe.hop_length + i) 0 * fe.hann_window.getD i 0
    else 0)

/-- The power spectrum `re*re + im*im` of the first `n_fft/2 + 1` output bins
of the forward transform of the (real-valued) buffer. -/
def powerSpectrum (fft : List (ℚ × ℚ) → List (ℚ × ℚ)) (fe : GigaamFrontend)
    (buf : List ℚ) : List ℚ :=
  (List.range (fe.n_fft / 2 + 1)).map (fun (b : ℕ) =>
    ((fft (buf.map (fun x => (x, 0)))).getD b (0, 0)).1 *
        ((fft (buf.map (fun x => (x, 0)))).getD b (0, 0)).1 +
      ((fft (buf.map (fun x => (x, 0)))).getD b (0, 0)).2 *
        ((fft (buf.map (fun x => (x, 0)))).getD b (0, 0)).2)

/-- The filterbank-weighted sum over the power bins for one mel band. -/
def melEnergy (fe : GigaamFrontend) (power : List ℚ) (mel : ℕ) : ℚ :=
  (List.range power.length).foldl
    (fun acc bin =>
      acc + power.getD bin 0 * fe.mel_filterbank.getD (bin * fe.n_mels + mel) 0)
    0

/-- The clamped mel energy written for band `mel` at frame `t` (the value
whose natural log the source stores). -/
def melEntry (fft : List (ℚ × ℚ) → List (ℚ × ℚ)) (fe : GigaamFrontend)
    (samples : List ℚ) (mel t : ℕ) : ℚ :=
  clampQ (melEnergy fe (powerSpectrum fft fe (windowedFrame fe samples t)) mel)

/-- The write sequence of the two nested loops (frames outer, mel bands
inner), in source order. -/
def featureWrites (fft : List (ℚ × ℚ) → List (ℚ × ℚ)) (fe : GigaamFrontend)
    (samples : List ℚ) (F : ℕ) : List (ℕ × ℚ) :=
  (List.range F).flatMap (fun t =>
    (List.range fe.n_mels).map (fun m => (m * F + t, melEntry fft fe samples m t)))

/-- Sequential stores into a flat buffer. -/
def applyWrites {α : Type} (ws : List (ℕ × α)) (init : List α) : List α :=
  ws.foldl (fun l iv => l.set iv.1 iv.2) init

/-- Models `GigaamFrontend::extract_features(samples)`: empty or too-short input
yields zero frames; otherwise `F = (len - win) / hop + 1` frames are
produced and every flat entry holds the natural log of its clamped mel
energy. -/
noncomputable def extract_features (fft : List (ℚ × ℚ) → List (ℚ × ℚ))
    (fe : GigaamFrontend) (samples : List ℚ) : Option (List ℝ × ℕ) :=
  if samples = [] then some ([], 0)
  else if fe.center then none
  else if samples.length < fe.win_length then some ([], 0)
  else
    some (applyWrites
      ((featureWrites fft fe samples
          ((samples.length - fe.win_length) / fe.hop_length + 1)).map
        (fun iv => (iv.1, Real.log (iv.2 : ℝ))))
      (List.replicate
        (fe.n_mels * ((samples.length - fe.win_length) / fe.hop_length + 1)) 0),
      (samples.length - fe.win_length) / fe.hop_length + 1)

/-! ## Transcription (`GigaamModel::transcribe_samples`) and subsampling -/

structure NativeTranscriptionTimings where
  feature_extraction_ms : ℕ
  ort_run_ms : ℕ
  decode_ms : ℕ
  total_ms : ℕ

structure NativeTranscriptionReport where
  text : String
  timings : NativeTranscriptionTimings
  provider_summary : String

/-- The subsampling factor stored in `GigaamModel::new`:
`config.subsampling_factor.max(1)`. -/
def storedSubsamplingFactor (config : GigaamConfig) : ℕ :=
  max config.subsampling_factor 1

/-- Models `((feature_length - 1) / subsampling_factor + 1).max(0)` with Rust's
truncating `i64` division. -/
def encodedLen (feature_length : ℤ) (ssf : ℕ) : ℤ :=
  max (Int.tdiv (feature_length - 1) (ssf : ℤ) + 1) 0

/-- Models `GigaamModel::transcribe_samples`, with the inference backend abstracted
as `run` (`none` models `InferenceFailed`/missing-output errors) and the
wall-clock observations of the four timers passed in as `feMs`, `ortMs`,
`decMs`, `totMs` (timings are observational only).  The zero-frames path
returns an empty-text report with zero inference/decode times without
consulting `run`. -/
noncomputable def transcribe_samples (fft : List (ℚ × ℚ) → List (ℚ × ℚ))
    (fe : GigaamFrontend) (vocab : List String) (blank_idx ssf : ℕ)
    (provider : String) (isWord isSpace : Char → Bool)
    (run : List ℝ × ℕ → Option (List (List ℚ)))
    (feMs ortMs decMs totMs : ℕ) (samples : List ℚ) :
    Option NativeTranscriptionReport :=
  match extract_features fft fe samples with
  | none => none
  | some (features, feature_length) =>
    if feature_length = 0 then
      some ⟨"", ⟨feMs, 0, 0, totMs⟩, provider⟩
    else
      match run (features, feature_length) with
      | none => none
      | some logits =>
        some ⟨decode_token_ids_to_text isWord isSpace
            (ctc_greedy_decode_ids logits
              (encodedLen (feature_length : ℤ) ssf).toNat blank_idx) vocab,
          ⟨feMs, ortMs, decMs, totMs⟩, provider⟩

/-! ## Runtime options and the engine cache
(`RuntimeOptions::cache_fragment`, `ensure_engine_loaded` in `lib.rs`)

`ensure_engine_loaded` is modelled as a pure state transformer on the cache
record.  The engine type is an abstract parameter `E`; the result of
`GigaamEngine::load_model` is the abstract `load : Option E` (`none` =
load failure, which leaves the cache unchanged and propagates the error).
The returned boolean records whether the load path executed, so that "how
many loads happen" is expressible. -/

inductive RuntimeSpeedProfile
  | Balanced
  | Fast
  | Quality
deriving DecidableEq

inductive RuntimeAcceleratorMode
  | Auto
  | Cpu
deriving DecidableEq

def RuntimeSpeedProfile.as_id : RuntimeSpeedProfile → String
  | .Balanced => "balanced"
  | .Fast => "fast"
  | .Quality => "quality"

def RuntimeAcceleratorMode.as_id : RuntimeAcceleratorMode → String
  | .Auto => "auto"
  | .Cpu => "cpu"

structure RuntimeOptions where
  speed_profile : RuntimeSpeedProfile
  accelerator_mode : RuntimeAcceleratorMode
deriving DecidableEq

/-- Models `RuntimeOptions::cache_fragment`. -/
def RuntimeOptions.cache_fragment (o : RuntimeOptions) : String :=
  "profile=" ++ o.speed_profile.as_id ++ ";accelerator=" ++ o.accelerator_mode.as_id

/-- Models `model_subdirectory_name` (errors on unsupported model ids). -/
def model_subdirectory_name (model_id : String) : Option String :=
  if model_id = "gigaam-v3-e2e-ctc-int8" then some "gigaam-v3-e2e-ctc-int8"
  else if model_id = "gigaam-v3-e2e-ctc" then some "gigaam-v3-e2e-ctc"
  else none

/-- Models `compose_cache_key`: model location plus the serialized runtime
options. -/
def compose_cache_key (models_root model_id : String) (o : RuntimeOptions) :
    Option String :=
  (model_subdirectory_name model_id).map
    (fun sub => models_root ++ "/" ++ sub ++ "?" ++ o.cache_fragment)

structure EngineCache (E : Type) where
  model_key : Option String
  engine : Option E
  runtime_options : RuntimeOptions
  last_profile_summary : String

/-- Models `ensure_engine_loaded`: recompute the key from the cache's runtime
options; on mismatch (or no entry) load and replace the entry, on match
reuse the cache unchanged.  The `Bool` result records whether `load` was
consulted. -/
def ensure_engine_loaded {E : Type} (load : Option E)
    (models_root model_id : String) (cache : EngineCache E) :
    Option (EngineCache E × Bool) :=
  (compose_cache_key models_root model_id cache.runtime_options).bind
    (fun cache_key =>
      if cache.model_key = some cache_key then some (cache, false)
      else
        load.bind (fun engine =>
          some (EngineCache.mk (some cache_key) (some engine)
            cache.runtime_options cache.last_profile_summary, true)))

lemma ctcLoop_eq_collapse (blank_idx : ℕ) :
    ∀ (frames : List (List ℚ)) (prev : ℕ),
      ctcLoop blank_idx frames prev =
        ((frames.map (fun f => bestIdx f blank_idx)).zip
            (prev :: frames.map (fun f => bestIdx f blank_idx))).filterMap
          (fun cp => if cp.1 ≠ blank_idx ∧ cp.1 ≠ cp.2 then some cp.1 else none)
  | [], _ => rfl
  | frame :: rest, prev => by
    simp only [ctcLoop, List.map_cons, List.zip_cons_cons, List.filterMap_cons]
    by_cases h : bestIdx frame blank_idx ≠ blank_idx ∧ bestIdx frame blank_idx ≠ prev
    · simp only [if_pos h, ctcLoop_eq_collapse blank_idx rest]
    · simp only [if_neg h, ctcLoop_eq_collapse blank_idx rest]

/-- Claim C1: in `ctc_greedy_decode_ids`, for every logits tensor, encoded
length and blank id, a chosen index is emitted iff it differs from the blank
id and from the index chosen at the immediately preceding usable step (the
pre-first-step predecessor being the blank id); and the spec's worked example
(labels 1, 1, blank, 1, 2, 2 with blank id 3, vocabulary size 4) decodes to
`[1, 1, 2]`. -/
theorem ctc_greedy_decode_emission_rule :
    (∀ (logits : List (List ℚ)) (encoded_len blank_idx : ℕ),
        ctc_greedy_decode_ids logits encoded_len blank_idx =
          collapseSpec blank_idx (chosenSeq logits encoded_len blank_idx)) ∧
      ctc_greedy_decode_ids exampleLogits 6 3 = [1, 1, 2] := by
  constructor
  · intro logits encoded_len blank_idx
    simpa [ctc_greedy_decode_ids, collapseSpec, chosenSeq] using
      ctcLoop_eq_collapse blank_idx (logits.take (min encoded_len logits.length))
        blank_idx
  · decide

lemma argmaxGo_invariant (frame : List ℚ) :
    ∀ (rest : List ℚ) (i bi : ℕ) (bv : ℚ),
      frame.drop i = rest →
      bi < i → bi < frame.length →
      frame.getD bi 0 = bv →
      (∀ j, j < i → frame.getD j 0 ≤ bv) →
      (∀ j, j < i → frame.getD j 0 = bv → j ≤ bi) →
      argmaxGo rest bi bv i < frame.length ∧
        (∀ j, j < frame.length →
          frame.getD j 0 ≤ frame.getD (argmaxGo rest bi bv i) 0) ∧
        (∀ j, j < frame.length →
          frame.getD j 0 = frame.getD (argmaxGo rest bi bv i) 0 →
          j ≤ argmaxGo rest bi bv i)
  | [], i, bi, bv, hdrop, hbi, hbil, hbv, hub, htie => by
    have hlen : frame.length ≤ i := by
      have := List.drop_eq_nil_iff.mp hdrop
      omega
    refine ⟨hbil, ?_, ?_⟩
    · intro j hj
      show frame.getD j 0 ≤ frame.getD bi 0
      rw [hbv]
      exact hub j (lt_of_lt_of_le hj hlen)
    · intro j hj hEq
      have hEq' : frame.getD j 0 = bv := by
        rw [← hbv]
        exact hEq
      exact htie j (lt_of_lt_of_le hj hlen) hEq'
  | v :: rest', i, bi, bv, hdrop, hbi, hbil, hbv, hub, htie => by
    have hi : frame[i]? = some v := by
      have h0 : (frame.drop i)[0]? = some v := by rw [hdrop]; simp
      simpa using h0
    have hil : i < frame.length := (List.getElem?_eq_some_iff.mp hi).1
    have hiv : frame.getD i 0 = v := by
      simp [List.getD_eq_getElem?_getD, hi]
    have hdrop' : frame.drop (i + 1) = rest' := by
      have h1 : frame.drop (i + 1) = (frame.drop i).drop 1 := by
        rw [List.drop_drop]
      rw [h1, hdrop]
      simp
    by_cases hcmp : bv > v
    · have hred : argmaxGo (v :: rest') bi bv i = argmaxGo rest' bi bv (i + 1) := by
        simp [argmaxGo, hcmp]
      have ih := argmaxGo_invariant frame rest' (i + 1) bi bv hdrop'
        (Nat.lt_succ_of_lt hbi) hbil hbv
        (fun j hj => by
          rcases Nat.lt_succ_iff_lt_or_eq.mp hj with hj' | hj'
          · exact hub j hj'
          · subst hj'
            rw [hiv]
            exact le_of_lt hcmp)
        (fun j hj hEq => by
          rcases Nat.lt_succ_iff_lt_or_eq.mp hj with hj' | hj'
          · exact htie j hj' hEq
          · subst hj'
            rw [hiv] at hEq
            exact absurd hEq (ne_of_lt hcmp))
      rw [hred]
      exact ih
    · have hred : argmaxGo (v :: rest') bi bv i = argmaxGo rest' i v (i + 1) := by
        simp [argmaxGo, hcmp]
      have ih := argmaxGo_invariant frame rest' (i + 1) i v hdrop'
        (Nat.lt_succ_self i) hil hiv
        (fun j hj => by
          rcases Nat.lt_succ_iff_lt_or_eq.mp hj with hj' | hj'
          · exact le_trans (hub j hj') (le_of_not_lt hcmp)
          · subst hj'
            rw [hiv])
        (fun j hj _ => by omega)
      rw [hred]
      exact ih

/-- Claim C2: for every nonempty logits frame the index chosen by the decoder
attains the maximum logit value, and on ties the highest index among the tied
maxima wins (last-max tie-break); and for a fixed logits tensor, encoded
length and blank id the whole decode is deterministic. -/
theorem ctc_argmax_last_max_tie_break :
    (∀ (frame : List ℚ) (blank_idx : ℕ), frame ≠ [] →
        bestIdx frame blank_idx < frame.length ∧
          (∀ j, j < frame.length →
            frame.getD j 0 ≤ frame.getD (bestIdx frame blank_idx) 0) ∧
          (∀ j, j < frame.length →
            frame.getD j 0 = frame.getD (bestIdx frame blank_idx) 0 →
            j ≤ bestIdx frame blank_idx)) ∧
      (∀ (logits : List (List ℚ)) (encoded_len blank_idx : ℕ) (out₁ out₂ : List ℕ),
        out₁ = ctc_greedy_decode_ids logits encoded_len blank_idx →
        out₂ = ctc_greedy_decode_ids logits encoded_len blank_idx → out₁ = out₂) := by
  constructor
  · intro frame blank_idx hne
    match frame, hne with
    | v :: rest, _ =>
      have h := argmaxGo_invariant (v :: rest) rest 1 0 v rfl Nat.zero_lt_one
        (by simp) rfl
        (fun j hj => by
          have hj0 : j = 0 := by omega
          subst hj0
          simp)
        (fun j hj _ => by omega)
      simpa [bestIdx] using h
  · intro _ _ _ _ _ h₁ h₂
    rw [h₁, h₂]

/-- Witness for C2 at the concrete frame `[1, 3, 3]` with blank id 0: the tied
maximum 3 occurs at indices 1 and 2 and the decoder chooses index 2. -/
theorem ctc_argmax_last_max_tie_break_witness :
    ([(1 : ℚ), 3, 3] ≠ []) ∧
      (bestIdx [(1 : ℚ), 3, 3] 0 < ([(1 : ℚ), 3, 3] : List ℚ).length ∧
        (∀ j, j < ([(1 : ℚ), 3, 3] : List ℚ).length →
          ([(1 : ℚ), 3, 3] : List ℚ).getD j 0 ≤
            ([(1 : ℚ), 3, 3] : List ℚ).getD (bestIdx [(1 : ℚ), 3, 3] 0) 0) ∧
        (∀ j, j < ([(1 : ℚ), 3, 3] : List ℚ).length →
          ([(1 : ℚ), 3, 3] : List ℚ).getD j 0 =
            ([(1 : ℚ), 3, 3] : List ℚ).getD (bestIdx [(1 : ℚ), 3, 3] 0) 0 →
          j ≤ bestIdx [(1 : ℚ), 3, 3] 0)) ∧
      bestIdx [(1 : ℚ), 3, 3] 0 = 2 :=
  ⟨by decide, ctc_argmax_last_max_tie_break.1 [(1 : ℚ), 3, 3] 0 (by decide), by decide⟩

lemma length_foldl_set (entries : List (ℕ × String)) :
    ∀ init : List String,
      (entries.foldl (fun v e => v.set e.1 e.2) init).length = init.length := by
  induction entries with
  | nil => intro init; rfl
  | cons e rest ih =>
    intro init
    rw [List.foldl_cons, ih, List.length_set]

lemma getD_foldl_set_notMem (entries : List (ℕ × String)) :
    ∀ (init : List String) (i : ℕ), i ∉ entries.map Prod.fst →
      (entries.foldl (fun v e => v.set e.1 e.2) init).getD i "" = init.getD i "" := by
  induction entries with
  | nil => intro init i _; rfl
  | cons e rest ih =>
    intro init i hi
    rw [List.map_cons, List.mem_cons] at hi
    push_neg at hi
    rw [List.foldl_cons, ih _ _ hi.2]
    simp [List.getD_eq_getElem?_getD, List.getElem?_set_ne (Ne.symm hi.1)]

/-- Claim C6: `parse_vocab_content` builds a dense vocabulary: every id in
`[0, max id]` has an entry (the vector has length `max id + 1`), ids not on
any line map to the empty string, parsing fails when no line carries the
token `<blk>`, and on the spec's example the blank id is 3, id 1 maps to
`" hello"` (marker replaced by a space) and id 2 maps to `"world"`. -/
theorem parse_vocab_dense_and_blank :
    (∀ (content : String) (entries : List (ℕ × String)) (maxId : ℕ)
        (blank : Option ℕ) (vocab : List String) (b : ℕ),
        parseVocabGo (splitLines content) [] 0 none = some (entries, maxId, blank) →
        parse_vocab_content content = some (vocab, b) →
        vocab.length = maxId + 1 ∧ blank = some b ∧
          (∀ i, i ∉ entries.map Prod.fst → vocab.getD i "" = "")) ∧
    (∀ (content : String) (entries : List (ℕ × String)) (maxId : ℕ),
        parseVocabGo (splitLines content) [] 0 none = some (entries, maxId, none) →
        parse_vocab_content content = none) ∧
    (∃ vocab, parse_vocab_content exampleVocabContent = some (vocab, 3) ∧
        vocab.getD 1 "" = " hello" ∧ vocab.getD 2 "" = "world") := by
  refine ⟨?_, ?_, ?_⟩
  · intro content entries maxId blank vocab b hgo hparse
    rw [parse_vocab_content, hgo] at hparse
    match blank, hparse with
    | some b', hparse =>
      have hv : entries.foldl (fun v e => v.set e.1 e.2)
          (List.replicate (maxId + 1) "") = vocab ∧ b' = b := by
        constructor
        · exact congrArg Prod.fst (Option.some_injective _ hparse)
        · exact congrArg Prod.snd (Option.some_injective _ hparse)
      refine ⟨?_, by rw [hv.2], ?_⟩
      · rw [← hv.1, length_foldl_set, List.length_replicate]
      · intro i hi
        rw [← hv.1, getD_foldl_set_notMem entries _ i hi]
        simp only [List.getD_eq_getElem?_getD, List.getElem?_replicate]
        split <;> rfl
  · intro content entries maxId hgo
    rw [parse_vocab_content, hgo]
  · exact ⟨["<unk>", " hello", "world", "<blk>"], by decide, by decide, by decide⟩

/-- Witness for C6: the spec's example content parses to the expected dense
vocabulary, so the dense-vocabulary facts hold at a concrete input. -/
theorem parse_vocab_dense_and_blank_witness :
    (parseVocabGo (splitLines exampleVocabContent) [] 0 none =
        some ([(0, "<unk>"), (1, " hello"), (2, "world"), (3, "<blk>")], 3, some 3) ∧
      parse_vocab_content exampleVocabContent =
        some (["<unk>", " hello", "world", "<blk>"], 3)) ∧
      (["<unk>", " hello", "world", "<blk>"] : List String).length = 3 + 1 := by
  refine ⟨⟨by decide, by decide⟩, ?_⟩
  exact (parse_vocab_dense_and_blank.1 exampleVocabContent
    [(0, "<unk>"), (1, " hello"), (2, "world"), (3, "<blk>")] 3 (some 3)
    ["<unk>", " hello", "world", "<blk>"] 3 (by decide) (by decide)).1

/-- Counterexample to claim C7 as stated: for the single-token vocabulary
`["a "]` the code strips the trailing whitespace (regex branch `\s\B`, which
also matches before the end of the string), while the claim's literal
three-way rule covers no whitespace at the end of the string and keeps it. -/
theorem decode_spacing_counterexample :
    decode_token_ids_to_text wordCharB spaceCharB [0] ["a "] = "a" ∧
      decodeTokenIdsClaim wordCharB spaceCharB [0] ["a "] = "a " ∧
      decode_token_ids_to_text wordCharB spaceCharB [0] ["a "] ≠
        decodeTokenIdsClaim wordCharB spaceCharB [0] ["a "] := by
  refine ⟨by decide, by decide, by decide⟩

lemma regexNormalizeGo_eq_amended (isWord isSpace : Char → Bool) :
    ∀ (cs : List Char) (atStart : Bool),
      regexNormalizeGo isWord isSpace atStart cs =
        amendedNormalizeGo isWord isSpace atStart cs
  | [], _ => rfl
  | c :: rest, atStart => by
    simp only [regexNormalizeGo, amendedNormalizeGo,
      regexNormalizeGo_eq_amended isWord isSpace rest false]
    by_cases hs : isSpace c
    · simp only [if_pos hs]
      by_cases ha : atStart
      · simp only [if_pos ha]
      · simp only [if_neg ha]
        match rest with
        | [] => simp [nextIsWord]
        | d :: rest' => simp [List.isEmpty]
    · simp only [if_neg hs]

/-- Claim C7 as amended: `decode_token_ids_to_text` concatenates each id's
vocabulary string, silently skipping out-of-range ids, and then normalizes by
the three-way rule with the end of the string treated like a following
non-word character: whitespace at the very start is stripped, whitespace
before a non-word character or at the end of the string is stripped, and
whitespace before a word boundary collapses to a single literal space. -/
theorem decode_spacing_amended :
    ∀ (isWord isSpace : Char → Bool) (token_ids : List ℕ) (vocab : List String),
      decode_token_ids_to_text isWord isSpace token_ids vocab =
        decodeTokenIdsAmended isWord isSpace token_ids vocab := by
  intro isWord isSpace token_ids vocab
  rw [decode_token_ids_to_text, decodeTokenIdsAmended,
    regexNormalizeGo_eq_amended]

lemma foldlM_guard_isSome {α : Type} (bad : ℕ → Prop) [DecidablePred bad]
    (upd : α → ℕ → α) :
    ∀ (l : List ℕ) (init : α),
      (l.foldlM (m := Option)
          (fun fb mel => if bad mel then none else some (upd fb mel)) init).isSome ↔
        ∀ mel ∈ l, ¬ bad mel := by
  intro l
  induction l with
  | nil => intro init; simp
  | cons a rest ih =>
    intro init
    by_cases ha : bad a
    · simp [List.foldlM_cons, if_pos ha, ha]
    · simp [List.foldlM_cons, if_neg ha, ih (upd init a), ha]

/-- Claim C8: construction from an acoustic configuration fails at load time
whenever hop length, window length or FFT size is zero, the FFT size is
smaller than the window length, the mel-scale id is not "htk"
(case-insensitively), the centering flag is set, or the sample rate differs
from 16000; and when all those invariants hold, frontend construction
succeeds exactly when every mel filter's center lies strictly between its
edges. -/
theorem frontend_construction_validation (exp10f log10f cos2pi quantF : ℚ → ℚ)
    (config : GigaamConfig) :
    ((config.hop_length = 0 ∨ config.win_length = 0 ∨ config.n_fft = 0 ∨
        config.n_fft < config.win_length ∨
        melScaleIsHtk config.mel_scale = false ∨ config.center = true) →
      from_config exp10f log10f cos2pi quantF config = none) ∧
      (config.sample_rate ≠ 16000 →
        modelNewFrontend exp10f log10f cos2pi quantF config = none) ∧
      (config.sample_rate = 16000 →
        modelNewFrontend exp10f log10f cos2pi quantF config =
          from_config exp10f log10f cos2pi quantF config) ∧
      (config.hop_length ≠ 0 → config.win_length ≠ 0 → config.n_fft ≠ 0 →
        ¬ config.n_fft < config.win_length →
        melScaleIsHtk config.mel_scale = true → config.center = false →
        ((∃ fe, from_config exp10f log10f cos2pi quantF config = some fe) ↔
          melGeometryOk exp10f log10f config.sample_rate config.n_mels)) := by
  refine ⟨?_, ?_, ?_, ?_⟩
  · intro hviol
    by_cases h1 : config.hop_length = 0
    · simp [from_config, h1]
    by_cases h2 : config.win_length = 0
    · simp [from_config, h1, h2]
    by_cases h3 : config.n_fft = 0
    · simp [from_config, h1, h2, h3]
    by_cases h4 : config.n_fft < config.win_length
    · simp [from_config, h1, h2, h3, h4]
    by_cases h5 : melScaleIsHtk config.mel_scale
    · by_cases h6 : config.center
      · simp [from_config, h1, h2, h3, h4, h5, h6]
      · rcases hviol with h | h | h | h | h | h <;> simp_all
    · have h5' : melScaleIsHtk config.mel_scale = false := Bool.eq_false_iff.mpr h5
      simp [from_config, h1, h2, h3, h4, h5']
  · intro h
    simp [modelNewFrontend, h]
  · intro h
    simp [modelNewFrontend, h]
  · intro h1 h2 h3 h4 h5 h6
    have hform : from_config exp10f log10f cos2pi quantF config =
        match build_mel_filterbank exp10f log10f quantF config.sample_rate
            config.n_fft config.n_mels (quantizeFlag config) with
        | none => none
        | some fb =>
          some ⟨config.n_mels, config.win_length, config.hop_length,
            config.n_fft, config.center,
            build_hann_window cos2pi quantF config.win_length
              (quantizeFlag config), fb⟩ := by
      simp [from_config, h1, h2, h3, h4, h5, h6]
    have hiff :
        (build_mel_filterbank exp10f log10f quantF config.sample_rate
            config.n_fft config.n_mels (quantizeFlag config)).isSome ↔
          melGeometryOk exp10f log10f config.sample_rate config.n_mels := by
      rw [build_mel_filterbank]
      rw [foldlM_guard_isSome]
      constructor
      · intro h mel hmel
        have := h mel (List.mem_range.mpr hmel)
        push_neg at this
        exact this
      · intro h mel hmel
        have := h mel (List.mem_range.mp hmel)
        push_neg
        exact this
    rw [hform]
    constructor
    · intro hfe
      rcases hfe with ⟨fe, hfe⟩
      match hfb : build_mel_filterbank exp10f log10f quantF config.sample_rate
          config.n_fft config.n_mels (quantizeFlag config) with
      | none => rw [hfb] at hfe; exact absurd hfe (by simp)
      | some fb => exact hiff.mp (by rw [hfb]; rfl)
    · intro hg
      have := hiff.mpr hg
      match hfb : build_mel_filterbank exp10f log10f quantF config.sample_rate
          config.n_fft config.n_mels (quantizeFlag config) with
      | none => rw [hfb] at this; exact absurd this (by simp)
      | some fb => exact ⟨_, rfl⟩

/-- Witness for C8 at concrete configurations: the invariant-violating one is
rejected, the valid one (with valid filter geometry) is accepted. -/
theorem frontend_construction_validation_witness :
    (cfgWitnessBad.n_fft < cfgWitnessBad.win_length ∧
        from_config id id id id cfgWitnessBad = none) ∧
      (melGeometryOk id id cfgWitnessOk.sample_rate cfgWitnessOk.n_mels ∧
        ∃ fe, from_config id id id id cfgWitnessOk = some fe) := by
  have hgeom : melGeometryOk id id cfgWitnessOk.sample_rate cfgWitnessOk.n_mels := by
    have hpts : melHzPoints id id cfgWitnessOk.sample_rate cfgWitnessOk.n_mels =
        [0, 4000, 8000] := by
      norm_num [melHzPoints, hz_to_mel_htk, mel_to_hz_htk, List.range_succ,
        cfgWitnessOk]
    intro mel hmel
    have hmel1 : cfgWitnessOk.n_mels = 1 := rfl
    have h0 : mel = 0 := by omega
    subst h0
    rw [hpts]
    norm_num [List.getD]
  constructor
  · exact ⟨by decide, (frontend_construction_validation id id id id cfgWitnessBad).1
      (Or.inr (Or.inr (Or.inr (Or.inl (by decide)))))⟩
  · exact ⟨hgeom, ((frontend_construction_validation id id id id cfgWitnessOk).2.2.2
      (by decide) (by decide) (by decide) (by decide) (by decide) (by decide)).mpr
      hgeom⟩

lemma rowIdx_inj (nm b₁ m₁ b₂ m₂ : ℕ) (h₁ : m₁ < nm) (h₂ : m₂ < nm)
    (h : b₁ * nm + m₁ = b₂ * nm + m₂) : b₁ = b₂ ∧ m₁ = m₂ := by
  have h' : nm * b₁ + m₁ = nm * b₂ + m₂ := by
    rw [Nat.mul_comm nm b₁, Nat.mul_comm nm b₂]
    exact h
  have e₁ : (nm * b₁ + m₁) % nm = m₁ := by
    rw [Nat.mul_add_mod]
    exact Nat.mod_eq_of_lt h₁
  have e₂ : (nm * b₂ + m₂) % nm = m₂ := by
    rw [Nat.mul_add_mod]
    exact Nat.mod_eq_of_lt h₂
  have hm : m₁ = m₂ := by rw [← e₁, ← e₂, h']
  subst hm
  have hb : b₁ * nm = b₂ * nm := Nat.add_right_cancel h
  exact ⟨Nat.eq_of_mul_eq_mul_right (by omega) hb, rfl⟩

lemma fbRowGo_nil (nm mel : ℕ) (qf : ℚ → ℚ) (q : Bool) (l c r : ℚ)
    (freqs : List ℚ) (fb : List ℚ) :
    fbRowGo nm mel qf q l c r freqs [] fb = fb := rfl

lemma fbRowGo_cons (nm mel : ℕ) (qf : ℚ → ℚ) (q : Bool) (l c r : ℚ)
    (freqs : List ℚ) (b : ℕ) (bins : List ℕ) (fb : List ℚ) :
    fbRowGo nm mel qf q l c r freqs (b :: bins) fb =
      fbRowGo nm mel qf q l c r freqs bins
        (if 0 < melWeight l c r (freqs.getD b 0)
         then fb.set (b * nm + mel)
           (if q then qf (melWeight l c r (freqs.getD b 0))
            else melWeight l c r (freqs.getD b 0))
         else fb) := rfl

lemma fbRowGo_append (nm mel : ℕ) (qf : ℚ → ℚ) (q : Bool) (l c r : ℚ)
    (freqs : List ℚ) (bins₁ bins₂ : List ℕ) (fb : List ℚ) :
    fbRowGo nm mel qf q l c r freqs (bins₁ ++ bins₂) fb =
      fbRowGo nm mel qf q l c r freqs bins₂
        (fbRowGo nm mel qf q l c r freqs bins₁ fb) := by
  simp [fbRowGo, List.foldl_append]

lemma fbRowGo_length (nm mel : ℕ) (qf : ℚ → ℚ) (q : Bool) (l c r : ℚ)
    (freqs : List ℚ) :
    ∀ (bins : List ℕ) (fb : List ℚ),
      (fbRowGo nm mel qf q l c r freqs bins fb).length = fb.length := by
  intro bins
  induction bins with
  | nil => intro fb; rfl
  | cons b rest ih =>
    intro fb
    rw [fbRowGo_cons, ih]
    split <;> simp [List.length_set]

lemma fbRowGo_getD_skip (nm mel : ℕ) (qf : ℚ → ℚ) (q : Bool) (l c r : ℚ)
    (freqs : List ℚ) :
    ∀ (bins : List ℕ) (fb : List ℚ) (target : ℕ),
      (∀ b ∈ bins, b * nm + mel ≠ target) →
      (fbRowGo nm mel qf q l c r freqs bins fb).getD target 0 =
        fb.getD target 0 := by
  intro bins
  induction bins with
  | nil => intro fb target _; rfl
  | cons b rest ih =>
    intro fb target hne
    rw [fbRowGo_cons, ih _ _ (fun b' hb' => hne b' (List.mem_cons_of_mem b hb'))]
    split
    · simp [List.getD_eq_getElem?_getD,
        List.getElem?_set_ne (hne b (List.mem_cons_self b rest))]
    · rfl

lemma fbRowGo_getD_hit (nm mel : ℕ) (qf : ℚ → ℚ) (q : Bool) (l c r : ℚ)
    (freqs : List ℚ) (N b : ℕ) (fb : List ℚ) (hb : b < N) (hmel : mel < nm)
    (hlen : b * nm + mel < fb.length) :
    (fbRowGo nm mel qf q l c r freqs (List.range N) fb).getD (b * nm + mel) 0 =
      if 0 < melWeight l c r (freqs.getD b 0)
      then (if q then qf (melWeight l c r (freqs.getD b 0))
            else melWeight l c r (freqs.getD b 0))
      else fb.getD (b * nm + mel) 0 := by
  have hN : N = (b + 1) + (N - b - 1) := by omega
  rw [hN, List.range_add, fbRowGo_append, List.range_succ, fbRowGo_append]
  have hskip₁ : (fbRowGo nm mel qf q l c r freqs (List.range b) fb).getD
      (b * nm + mel) 0 = fb.getD (b * nm + mel) 0 := by
    apply fbRowGo_getD_skip
    intro b' hb' heq
    have hbb := (rowIdx_inj nm b' mel b mel hmel hmel heq).1
    have hlt := List.mem_range.mp hb'
    omega
  have hlen₁ : (fbRowGo nm mel qf q l c r freqs (List.range b) fb).length =
      fb.length := fbRowGo_length ..
  rw [fbRowGo_getD_skip]
  · rw [fbRowGo_cons, fbRowGo_nil]
    split
    · simp [List.getD_eq_getElem?_getD,
        List.getElem?_set_eq_of_lt _ (by rw [hlen₁]; exact hlen)]
    · exact hskip₁
  · intro b'' hb'' heq
    rcases List.mem_map.mp hb'' with ⟨i, _, hi⟩
    have := (rowIdx_inj nm b'' mel b mel hmel hmel heq).1
    omega

lemma foldlM_guard_getD_skip {bad : ℕ → Prop} [DecidablePred bad]
    (upd : List ℚ → ℕ → List ℚ) (target : ℕ) :
    ∀ (mels : List ℕ) (init fbOut : List ℚ),
      mels.foldlM (m := Option)
          (fun fb mel => if bad mel then none else some (upd fb mel)) init =
        some fbOut →
      (∀ m ∈ mels, ∀ fb : List ℚ, (upd fb m).getD target 0 = fb.getD target 0) →
      fbOut.getD target 0 = init.getD target 0 := by
  intro mels
  induction mels with
  | nil =>
    intro init fbOut h _
    cases h
    rfl
  | cons a rest ih =>
    intro init fbOut h hupd
    by_cases ha : bad a
    · simp [List.foldlM_cons, ha] at h
    · simp only [List.foldlM_cons, if_neg ha, Option.some_bind] at h
      rw [ih (upd init a) fbOut h
        (fun m hm => hupd m (List.mem_cons_of_mem a hm)),
        hupd a (List.mem_cons_self a rest) init]

lemma foldlM_guard_length {bad : ℕ → Prop} [DecidablePred bad]
    (upd : List ℚ → ℕ → List ℚ)
    (hupd : ∀ m (fb : List ℚ), (upd fb m).length = fb.length) :
    ∀ (mels : List ℕ) (init fbOut : List ℚ),
      mels.foldlM (m := Option)
          (fun fb mel => if bad mel then none else some (upd fb mel)) init =
        some fbOut →
      fbOut.length = init.length := by
  intro mels
  induction mels with
  | nil =>
    intro init fbOut h
    cases h
    rfl
  | cons a rest ih =>
    intro init fbOut h
    by_cases ha : bad a
    · simp [List.foldlM_cons, ha] at h
    · simp only [List.foldlM_cons, if_neg ha, Option.some_bind] at h
      rw [ih (upd init a) fbOut h, hupd a init]

lemma build_mel_filterbank_entry (exp10f log10f quantF : ℚ → ℚ)
    (sr nf nm : ℕ) (q : Bool) (fb : List ℚ)
    (hfb : build_mel_filterbank exp10f log10f quantF sr nf nm q = some fb)
    (bin mel : ℕ) (hbin : bin < nf / 2 + 1) (hmel : mel < nm) :
    fb.getD (bin * nm + mel) 0 =
      (if 0 < melWeight ((melHzPoints exp10f log10f sr nm).getD mel 0)
          ((melHzPoints exp10f log10f sr nm).getD (mel + 1) 0)
          ((melHzPoints exp10f log10f sr nm).getD (mel + 2) 0)
          ((fftFreqs sr nf).getD bin 0)
       then
        (if q then
          quantF (melWeight ((melHzPoints exp10f log10f sr nm).getD mel 0)
            ((melHzPoints exp10f log10f sr nm).getD (mel + 1) 0)
            ((melHzPoints exp10f log10f sr nm).getD (mel + 2) 0)
            ((fftFreqs sr nf).getD bin 0))
         else
          melWeight ((melHzPoints exp10f log10f sr nm).getD mel 0)
            ((melHzPoints exp10f log10f sr nm).getD (mel + 1) 0)
            ((melHzPoints exp10f log10f sr nm).getD (mel + 2) 0)
            ((fftFreqs sr nf).getD bin 0))
       else 0) := by
  have hfreqlen : (fftFreqs sr nf).length = nf / 2 + 1 := by
    rw [fftFreqs, List.length_map, List.length_range]
  have hsplit : List.range nm =
      (List.range mel ++ [mel]) ++
        (List.range (nm - mel - 1)).map ((mel + 1) + ·) := by
    rw [← List.range_succ, ← List.range_add]
    congr 1
    omega
  simp only [build_mel_filterbank] at hfb
  rw [hsplit, List.foldlM_append, List.foldlM_append] at hfb
  rcases Option.bind_eq_some.mp hfb with ⟨midAll, hmidAll, htail⟩
  rcases Option.bind_eq_some.mp hmidAll with ⟨mid₁, hmid₁, hstep⟩
  simp only [List.foldlM_cons, List.foldlM_nil, bind_pure] at hstep
  by_cases hbad : (melHzPoints exp10f log10f sr nm).getD (mel + 1) 0 ≤
      (melHzPoints exp10f log10f sr nm).getD mel 0 ∨
      (melHzPoints exp10f log10f sr nm).getD (mel + 2) 0 ≤
        (melHzPoints exp10f log10f sr nm).getD (mel + 1) 0
  · rw [if_pos hbad] at hstep
    simp at hstep
  · rw [if_neg hbad] at hstep
    simp only [Option.some.injEq] at hstep
    -- lengths: the updates never change the length
    have hlen₁ : mid₁.length = ((nf / 2 + 1) * nm) := by
      have := foldlM_guard_length
        (fun fb' m => fbRowGo nm m quantF q
          ((melHzPoints exp10f log10f sr nm).getD m 0)
          ((melHzPoints exp10f log10f sr nm).getD (m + 1) 0)
          ((melHzPoints exp10f log10f sr nm).getD (m + 2) 0)
          (fftFreqs sr nf) (List.range (fftFreqs sr nf).length) fb')
        (fun m fb' => fbRowGo_length ..) (List.range mel) _ _ hmid₁
      rw [this, List.length_replicate]
    have htarget : bin * nm + mel < (nf / 2 + 1) * nm := by
      have h1 : bin * nm + mel < (bin + 1) * nm := by
        rw [Nat.succ_mul]
        omega
      have h2 : (bin + 1) * nm ≤ (nf / 2 + 1) * nm :=
        Nat.mul_le_mul_right nm (by omega)
      exact lt_of_lt_of_le h1 h2
    -- the rows before `mel` leave the target entry at its initial value 0
    have hmid₁getD : mid₁.getD (bin * nm + mel) 0 = 0 := by
      have hskip := foldlM_guard_getD_skip
        (fun fb' m => fbRowGo nm m quantF q
          ((melHzPoints exp10f log10f sr nm).getD m 0)
          ((melHzPoints exp10f log10f sr nm).getD (m + 1) 0)
          ((melHzPoints exp10f log10f sr nm).getD (m + 2) 0)
          (fftFreqs sr nf) (List.range (fftFreqs sr nf).length) fb')
        (bin * nm + mel) (List.range mel) _ _ hmid₁ ?_
      · rw [hskip]
        simp only [List.getD_eq_getElem?_getD, List.getElem?_replicate]
        split <;> rfl
      · intro m hm fb'
        apply fbRowGo_getD_skip
        intro b' _ heq
        have hmm := (rowIdx_inj nm b' m bin mel
          (lt_trans (List.mem_range.mp hm) hmel) hmel heq).2
        have := List.mem_range.mp hm
        omega
    -- the rows after `mel` leave the target entry untouched
    have hfinal : fb.getD (bin * nm + mel) 0 =
        (fbRowGo nm mel quantF q
          ((melHzPoints exp10f log10f sr nm).getD mel 0)
          ((melHzPoints exp10f log10f sr nm).getD (mel + 1) 0)
          ((melHzPoints exp10f log10f sr nm).getD (mel + 2) 0)
          (fftFreqs sr nf) (List.range (fftFreqs sr nf).length) mid₁).getD
          (bin * nm + mel) 0 := by
      rw [← hstep] at htail
      have := foldlM_guard_getD_skip
        (fun fb' m => fbRowGo nm m quantF q
          ((melHzPoints exp10f log10f sr nm).getD m 0)
          ((melHzPoints exp10f log10f sr nm).getD (m + 1) 0)
          ((melHzPoints exp10f log10f sr nm).getD (m + 2) 0)
          (fftFreqs sr nf) (List.range (fftFreqs sr nf).length) fb')
        (bin * nm + mel) ((List.range (nm - mel - 1)).map ((mel + 1) + ·)) _ _
        htail ?_
      · exact this
      · intro m hm fb'
        rcases List.mem_map.mp hm with ⟨i, hi, him⟩
        apply fbRowGo_getD_skip
        intro b' _ heq
        have hilt := List.mem_range.mp hi
        have hmlt : m < nm := by omega
        have hmm := (rowIdx_inj nm b' m bin mel hmlt hmel heq).2
        omega
    rw [hfinal, fbRowGo_getD_hit nm mel quantF q
      ((melHzPoints exp10f log10f sr nm).getD mel 0)
      ((melHzPoints exp10f log10f sr nm).getD (mel + 1) 0)
      ((melHzPoints exp10f log10f sr nm).getD (mel + 2) 0)
      (fftFreqs sr nf) (fftFreqs sr nf).length bin mid₁
      (by rw [hfreqlen]; exact hbin) hmel (by rw [hlen₁]; exact htarget),
      hmid₁getD]

lemma bf16MaskBits_spec (bits : ℕ) (h : bits < 2 ^ 32) :
    bf16MaskBits bits = bits / 2 ^ 16 * 2 ^ 16 ∧ bf16MaskBits bits % 2 ^ 16 = 0 := by
  have hkeep : bf16MaskBits bits = bits / 2 ^ 16 * 2 ^ 16 := by
    have hM : (0xFFFF0000 : ℕ) = (2 ^ 16 - 1) <<< 16 := by
      rw [Nat.shiftLeft_eq]
      norm_num
    have hrhs : bits / 2 ^ 16 * 2 ^ 16 = (bits >>> 16) <<< 16 := by
      rw [Nat.shiftRight_eq_div_pow, Nat.shiftLeft_eq]
    apply Nat.eq_of_testBit_eq
    intro i
    rw [hrhs, bf16MaskBits, hM]
    show (bits &&& ((2 ^ 16 - 1) <<< 16)).testBit i =
      ((bits >>> 16) <<< 16).testBit i
    rw [Nat.testBit_and, Nat.testBit_shiftLeft, Nat.testBit_shiftLeft,
      Nat.testBit_shiftRight, Nat.testBit_two_pow_sub_one]
    by_cases h16 : 16 ≤ i
    · by_cases h32 : i < 32
      · simp [h16, show i - 16 < 16 by omega, show 16 + (i - 16) = i by omega]
      · have hb : bits.testBit i = false :=
          Nat.testBit_lt_two_pow
            (lt_of_lt_of_le h (Nat.pow_le_pow_right (by norm_num) (by omega)))
        have hb' : bits.testBit (16 + (i - 16)) = false := by
          rw [show 16 + (i - 16) = i by omega]
          exact hb
        simp [h16, hb, hb']
    · simp [h16]
  exact ⟨hkeep, by rw [hkeep]; exact Nat.mul_mod_left ..⟩

lemma build_hann_window_map (cos2pi quantF : ℚ → ℚ) (win : ℕ) (hwin : win ≠ 1) :
    build_hann_window cos2pi quantF win true =
      (build_hann_window cos2pi quantF win false).map quantF := by
  rw [build_hann_window, build_hann_window, if_neg hwin, if_neg hwin,
    List.map_map]
  rfl

/-- Claim C9: quantization applies exactly when the model name contains "v3"
or the configuration has `center = false` with FFT size 320; under that flag
every Hann coefficient (window length ≠ 1; for window length 1 the single
coefficient 1.0 is a fixed point of the truncation) is passed through the
quantizer and every positive filterbank weight is stored quantized (others
stay 0); and the quantizer itself keeps the top 16 bits of the 32-bit
representation, zeroing the low 16. -/
theorem bf16_quantization_policy (exp10f log10f cos2pi quantF : ℚ → ℚ)
    (config : GigaamConfig) :
    (quantizeFlag config = true ↔
        (containsChars config.model_name.data ['v', '3'] = true ∨
          (config.center = false ∧ config.n_fft = 320))) ∧
      (∀ fe, from_config exp10f log10f cos2pi quantF config = some fe →
        fe.hann_window =
            build_hann_window cos2pi quantF config.win_length
              (quantizeFlag config) ∧
          build_mel_filterbank exp10f log10f quantF config.sample_rate
              config.n_fft config.n_mels (quantizeFlag config) =
            some fe.mel_filterbank) ∧
      (∀ win : ℕ, win ≠ 1 →
        build_hann_window cos2pi quantF win true =
          (build_hann_window cos2pi quantF win false).map quantF) ∧
      (∀ fb, build_mel_filterbank exp10f log10f quantF config.sample_rate
            config.n_fft config.n_mels (quantizeFlag config) = some fb →
        ∀ bin mel, bin < config.n_fft / 2 + 1 → mel < config.n_mels →
          fb.getD (bin * config.n_mels + mel) 0 =
            (if 0 < melWeight
                ((melHzPoints exp10f log10f config.sample_rate config.n_mels).getD mel 0)
                ((melHzPoints exp10f log10f config.sample_rate config.n_mels).getD (mel + 1) 0)
                ((melHzPoints exp10f log10f config.sample_rate config.n_mels).getD (mel + 2) 0)
                ((fftFreqs config.sample_rate config.n_fft).getD bin 0)
             then
              (if quantizeFlag config then
                quantF (melWeight
                  ((melHzPoints exp10f log10f config.sample_rate config.n_mels).getD mel 0)
                  ((melHzPoints exp10f log10f config.sample_rate config.n_mels).getD (mel + 1) 0)
                  ((melHzPoints exp10f log10f config.sample_rate config.n_mels).getD (mel + 2) 0)
                  ((fftFreqs config.sample_rate config.n_fft).getD bin 0))
               else melWeight
                  ((melHzPoints exp10f log10f config.sample_rate config.n_mels).getD mel 0)
                  ((melHzPoints exp10f log10f config.sample_rate config.n_mels).getD (mel + 1) 0)
                  ((melHzPoints exp10f log10f config.sample_rate config.n_mels).getD (mel + 2) 0)
                  ((fftFreqs config.sample_rate config.n_fft).getD bin 0))
             else 0)) ∧
      (∀ bits : ℕ, bits < 2 ^ 32 →
        bf16MaskBits bits = bits / 2 ^ 16 * 2 ^ 16 ∧
          bf16MaskBits bits % 2 ^ 16 = 0) := by
  refine ⟨?_, ?_, ?_, ?_, ?_⟩
  · simp [quantizeFlag, Bool.or_eq_true, Bool.and_eq_true, Bool.not_eq_true',
      beq_iff_eq]
  · intro fe h
    simp only [from_config] at h
    split at h
    · exact Option.noConfusion h
    split at h
    · exact Option.noConfusion h
    split at h
    · exact Option.noConfusion h
    split at h
    · exact Option.noConfusion h
    split at h
    · exact Option.noConfusion h
    split at h
    · exact Option.noConfusion h
    split at h
    next heq => exact Option.noConfusion h
    next fb heq =>
      injection h with h
      subst h
      exact ⟨rfl, by rw [heq]⟩
  · intro win hwin
    exact build_hann_window_map cos2pi quantF win hwin
  · intro fb hfb bin mel hbin hmel
    exact build_mel_filterbank_entry exp10f log10f quantF config.sample_rate
      config.n_fft config.n_mels (quantizeFlag config) fb hfb bin mel hbin hmel
  · intro bits hbits
    exact bf16MaskBits_spec bits hbits

/-- Witness for C9 at concrete inputs: the window-map identity at window
length 2, the mask law at the bit pattern of `1.0f32`, and the frontend built
from `cfgWitnessOk` (whose two filter weights are both zero). -/
theorem bf16_quantization_policy_witness :
    ((2 : ℕ) ≠ 1 ∧
        build_hann_window id id 2 true = (build_hann_window id id 2 false).map id) ∧
      ((0x3F800000 : ℕ) < 2 ^ 32 ∧
        bf16MaskBits 0x3F800000 = 0x3F800000 / 2 ^ 16 * 2 ^ 16) ∧
      (∃ fe, from_config id id id id cfgWitnessOk = some fe ∧
        fe.hann_window =
          build_hann_window id id cfgWitnessOk.win_length
            (quantizeFlag cfgWitnessOk)) ∧
      (build_mel_filterbank id id id cfgWitnessOk.sample_rate cfgWitnessOk.n_fft
          cfgWitnessOk.n_mels (quantizeFlag cfgWitnessOk) = some [0, 0] ∧
        ([0, 0] : List ℚ).getD (0 * cfgWitnessOk.n_mels + 0) 0 = 0) := by
  have hpts : melHzPoints id id 16000 1 = [0, 4000, 8000] := by
    norm_num [melHzPoints, hz_to_mel_htk, mel_to_hz_htk, List.range_succ]
  have hfq : fftFreqs 16000 2 = [0, 8000] := by
    norm_num [fftFreqs, List.range_succ]
  have hquant : quantizeFlag cfgWitnessOk = false := by decide
  have hfbW : build_mel_filterbank id id id 16000 2 1 false = some [0, 0] := by
    simp only [build_mel_filterbank]
    rw [hpts, hfq]
    norm_num [List.range_succ, List.foldlM_cons, List.foldlM_nil, List.getD,
      fbRowGo, melWeight, List.replicate]
  have hfbW' : build_mel_filterbank id id id cfgWitnessOk.sample_rate
      cfgWitnessOk.n_fft cfgWitnessOk.n_mels (quantizeFlag cfgWitnessOk) =
      some [0, 0] := by
    rw [hquant]
    exact hfbW
  have hfc : from_config id id id id cfgWitnessOk =
      some ⟨1, 2, 1, 2, false, build_hann_window id id 2 false, [0, 0]⟩ := by
    simp only [from_config]
    rw [if_neg (by decide), if_neg (by decide), if_neg (by decide),
      if_neg (by decide), if_neg (by decide), if_neg (by decide), hquant]
    rw [show cfgWitnessOk.sample_rate = 16000 from rfl,
      show cfgWitnessOk.n_fft = 2 from rfl,
      show cfgWitnessOk.n_mels = 1 from rfl, hfbW]
    rfl
  refine ⟨⟨by decide, (bf16_quantization_policy id id id id cfgWitnessOk).2.2.1 2
      (by decide)⟩, ⟨by norm_num,
    ((bf16_quantization_policy id id id id cfgWitnessOk).2.2.2.2 0x3F800000
      (by norm_num)).1⟩, ?_, ?_⟩
  · refine ⟨⟨1, 2, 1, 2, false, build_hann_window id id 2 false, [0, 0]⟩, hfc, ?_⟩
    exact ((bf16_quantization_policy id id id id cfgWitnessOk).2.1 _ hfc).1
  · refine ⟨hfbW', ?_⟩
    have := (bf16_quantization_policy id id id id cfgWitnessOk).2.2.2.1 [0, 0]
      hfbW' 0 0 (by decide) (by decide)
    rw [this, hquant]
    rw [show cfgWitnessOk.sample_rate = 16000 from rfl,
      show cfgWitnessOk.n_fft = 2 from rfl,
      show cfgWitnessOk.n_mels = 1 from rfl, hpts, hfq]
    norm_num [melWeight, List.getD]

lemma applyWrites_length {α : Type} :
    ∀ (ws : List (ℕ × α)) (init : List α),
      (applyWrites ws init).length = init.length := by
  intro ws
  induction ws with
  | nil => intro init; rfl
  | cons w rest ih =>
    intro init
    show (applyWrites rest (init.set w.1 w.2)).length = init.length
    rw [ih, List.length_set]

lemma applyWrites_getD_notMem {α : Type} (d : α) :
    ∀ (ws : List (ℕ × α)) (init : List α) (i : ℕ),
      i ∉ ws.map Prod.fst →
      (applyWrites ws init).getD i d = init.getD i d := by
  intro ws
  induction ws with
  | nil => intro init i _; rfl
  | cons w rest ih =>
    intro init i hi
    rw [List.map_cons, List.mem_cons] at hi
    push_neg at hi
    show (applyWrites rest (init.set w.1 w.2)).getD i d = init.getD i d
    rw [ih _ _ hi.2]
    simp [List.getD_eq_getElem?_getD, List.getElem?_set_ne (Ne.symm hi.1)]

lemma applyWrites_getD_of_nodup {α : Type} (d : α) :
    ∀ (ws : List (ℕ × α)) (init : List α) (i : ℕ) (v : α),
      (ws.map Prod.fst).Nodup → (i, v) ∈ ws → i < init.length →
      (applyWrites ws init).getD i d = v := by
  intro ws
  induction ws with
  | nil => intro init i v _ hmem; exact absurd hmem (List.not_mem_nil _)
  | cons w rest ih =>
    intro init i v hnd hmem hlen
    rw [List.map_cons, List.nodup_cons] at hnd
    rcases List.mem_cons.mp hmem with heq | hmem'
    · subst heq
      show (applyWrites rest (init.set i v)).getD i d = v
      rw [applyWrites_getD_notMem d rest _ i hnd.1]
      simp [List.getD_eq_getElem?_getD, List.getElem?_set_eq_of_lt v hlen]
    · show (applyWrites rest (init.set w.1 w.2)).getD i d = v
      exact ih _ i v hnd.2 hmem' (by rw [List.length_set]; exact hlen)

lemma featureWrites_fst_nodup (fft : List (ℚ × ℚ) → List (ℚ × ℚ))
    (fe : GigaamFrontend) (samples : List ℚ) (F : ℕ) :
    ((featureWrites fft fe samples F).map Prod.fst).Nodup := by
  rw [featureWrites, List.map_flatMap]
  rw [List.nodup_flatMap]
  constructor
  · intro t ht
    rw [List.mem_range] at ht
    rw [List.map_map]
    refine List.Nodup.map ?_ (List.nodup_range ..)
    intro m m' hmm
    simp only [Function.comp_apply] at hmm
    exact (rowIdx_inj F m t m' t ht ht hmm).1
  · have hpw : (List.range F).Pairwise (fun a b => a ∈ List.range F ∧
        b ∈ List.range F ∧ a < b) := by
      rw [← List.Pairwise.and_mem]
      exact List.pairwise_lt_range ..
    refine hpw.imp ?_
    intro t t' htt'
    rcases htt' with ⟨ht, ht', hlt⟩
    rw [List.mem_range] at ht ht'
    intro x hx hx'
    simp only [List.map_map, List.mem_map, Function.comp_apply] at hx hx'
    rcases hx with ⟨m, _, hm⟩
    rcases hx' with ⟨m', _, hm'⟩
    have hmm : m * F + t = m' * F + t' := by rw [hm, hm']
    have := (rowIdx_inj F m t m' t' ht ht' hmm).2
    omega

lemma featureWrites_mem (fft : List (ℚ × ℚ) → List (ℚ × ℚ))
    (fe : GigaamFrontend) (samples : List ℚ) (F mel t : ℕ)
    (hmel : mel < fe.n_mels) (ht : t < F) :
    (mel * F + t, melEntry fft fe samples mel t) ∈
      featureWrites fft fe samples F := by
  rw [featureWrites, List.mem_flatMap]
  exact ⟨t, List.mem_range.mpr ht,
    List.mem_map.mpr ⟨mel, List.mem_range.mpr hmel, rfl⟩⟩

/-- Claim C3: for a sample buffer at least as long as the window the
extractor returns `F = (len − win) / hop + 1` frames (trailing samples
dropped, no padding or centering), the flat buffer has `n_mels * F` entries,
and entry `(0, mel, t)` of the reshaped tensor — flat index `mel * F + t` —
equals the natural log of the mel energy of the frame starting at
`t * hop_length`, clamped to `[1e-9, 1e9]`. -/
theorem extract_features_log_mel (fft : List (ℚ × ℚ) → List (ℚ × ℚ))
    (fe : GigaamFrontend) (samples : List ℚ) (hc : fe.center = false)
    (hw : 0 < fe.win_length) (hlen : fe.win_length ≤ samples.length) :
    ∃ flat, extract_features fft fe samples =
        some (flat, (samples.length - fe.win_length) / fe.hop_length + 1) ∧
      flat.length =
        fe.n_mels * ((samples.length - fe.win_length) / fe.hop_length + 1) ∧
      ∀ mel t, mel < fe.n_mels →
        t < (samples.length - fe.win_length) / fe.hop_length + 1 →
        flat.getD (mel * ((samples.length - fe.win_length) / fe.hop_length + 1) + t)
            (0 : ℝ) =
          Real.log
            (clampQ (melEnergy fe
              (powerSpectrum fft fe (windowedFrame fe samples t)) mel)) := by
  have hne : samples ≠ [] := by
    intro h
    rw [h] at hlen
    simp at hlen
    omega
  have hnotshort : ¬ samples.length < fe.win_length := by omega
  rw [extract_features, if_neg hne, if_neg (by rw [hc]; exact Bool.false_ne_true),
    if_neg hnotshort]
  refine ⟨_, rfl, ?_, ?_⟩
  · rw [applyWrites_length, List.length_replicate]
  · intro mel t hmel ht
    apply applyWrites_getD_of_nodup
    · rw [List.map_map]
      have : (Prod.fst ∘ fun iv : ℕ × ℚ => (iv.1, Real.log (iv.2 : ℝ))) =
          Prod.fst := by
        funext iv
        rfl
      rw [this]
      exact featureWrites_fst_nodup fft fe samples _
    · rw [List.mem_map]
      exact ⟨(mel * ((samples.length - fe.win_length) / fe.hop_length + 1) + t,
        melEntry fft fe samples mel t),
        featureWrites_mem fft fe samples _ mel t hmel ht, rfl⟩
    · rw [List.length_replicate]
      have h1 : mel * ((samples.length - fe.win_length) / fe.hop_length + 1) + t <
          (mel + 1) * ((samples.length - fe.win_length) / fe.hop_length + 1) := by
        rw [Nat.succ_mul]
        omega
      have h2 : (mel + 1) * ((samples.length - fe.win_length) / fe.hop_length + 1) ≤
          fe.n_mels * ((samples.length - fe.win_length) / fe.hop_length + 1) :=
        Nat.mul_le_mul_right _ (by omega)
      exact lt_of_lt_of_le h1 h2

/-- Witness for C3: a concrete two-sample buffer with a window of length 2
satisfies the hypotheses, so the frame count is 1 and the single frame's
entries are the clamped-log energies. -/
theorem extract_features_log_mel_witness :
    ((⟨1, 2, 1, 2, false, [1, 1], [1, 0]⟩ : GigaamFrontend).center = false ∧
        0 < (⟨1, 2, 1, 2, false, [1, 1], [1, 0]⟩ : GigaamFrontend).win_length ∧
        (⟨1, 2, 1, 2, false, [1, 1], [1, 0]⟩ : GigaamFrontend).win_length ≤
          ([(5 : ℚ), 7] : List ℚ).length) ∧
      ∃ flat, extract_features id ⟨1, 2, 1, 2, false, [1, 1], [1, 0]⟩
          [(5 : ℚ), 7] = some (flat, 1) := by
  refine ⟨⟨rfl, by decide, by decide⟩, ?_⟩
  rcases extract_features_log_mel id ⟨1, 2, 1, 2, false, [1, 1], [1, 0]⟩
      [(5 : ℚ), 7] rfl (by decide) (by decide) with ⟨flat, hflat, _⟩
  exact ⟨flat, hflat⟩

/-- Claim C4: empty or too-short sample buffers produce a zero-frame feature
tensor without error, and whenever the frame count is zero the transcription
returns an empty-text report with `ort_run_ms = 0` and `decode_ms = 0`
(feature-extraction time still recorded) without invoking the backend's run
call — the result is the same for every `run`. -/
theorem zero_frames_short_circuit (fft : List (ℚ × ℚ) → List (ℚ × ℚ))
    (fe : GigaamFrontend) (samples : List ℚ) :
    (samples = [] → extract_features fft fe samples = some ([], 0)) ∧
      (fe.center = false → samples.length < fe.win_length →
        extract_features fft fe samples = some ([], 0)) ∧
      (∀ (vocab : List String) (blank_idx ssf : ℕ) (provider : String)
          (isWord isSpace : Char → Bool)
          (run run' : List ℝ × ℕ → Option (List (List ℚ)))
          (feMs ortMs decMs totMs : ℕ) (flat : List ℝ),
        extract_features fft fe samples = some (flat, 0) →
        transcribe_samples fft fe vocab blank_idx ssf provider isWord isSpace
            run feMs ortMs decMs totMs samples =
          some ⟨"", ⟨feMs, 0, 0, totMs⟩, provider⟩ ∧
        transcribe_samples fft fe vocab blank_idx ssf provider isWord isSpace
            run feMs ortMs decMs totMs samples =
          transcribe_samples fft fe vocab blank_idx ssf provider isWord isSpace
            run' feMs ortMs decMs totMs samples) := by
  refine ⟨?_, ?_, ?_⟩
  · intro h
    rw [extract_features, if_pos h]
  · intro hc hshort
    rw [extract_features]
    by_cases hs : samples = []
    · rw [if_pos hs]
    · rw [if_neg hs, if_neg (by rw [hc]; exact Bool.false_ne_true), if_pos hshort]
  · intro vocab blank_idx ssf provider isWord isSpace run run' feMs ortMs decMs
      totMs flat hextract
    have h : transcribe_samples fft fe vocab blank_idx ssf provider isWord
        isSpace run feMs ortMs decMs totMs samples =
        some ⟨"", ⟨feMs, 0, 0, totMs⟩, provider⟩ := by
      rw [transcribe_samples, hextract]
      rfl
    have h' : transcribe_samples fft fe vocab blank_idx ssf provider isWord
        isSpace run' feMs ortMs decMs totMs samples =
        some ⟨"", ⟨feMs, 0, 0, totMs⟩, provider⟩ := by
      rw [transcribe_samples, hextract]
      rfl
    exact ⟨h, by rw [h, h']⟩

/-- Witness for C4: a one-sample buffer with window length 2 yields zero
frames, and the resulting report has empty text and zero inference/decode
times for any backend. -/
theorem zero_frames_short_circuit_witness :
    (([(1 : ℚ)] : List ℚ).length <
        (⟨1, 2, 1, 2, false, [1, 1], [1, 0]⟩ : GigaamFrontend).win_length ∧
      extract_features id ⟨1, 2, 1, 2, false, [1, 1], [1, 0]⟩ [(1 : ℚ)] =
        some ([], 0)) ∧
      transcribe_samples id ⟨1, 2, 1, 2, false, [1, 1], [1, 0]⟩ [] 0 4 "p"
          wordCharB spaceCharB (fun _ => none) 7 9 11 13 [(1 : ℚ)] =
        some ⟨"", ⟨7, 0, 0, 13⟩, "p"⟩ := by
  have hshort := (zero_frames_short_circuit id
    ⟨1, 2, 1, 2, false, [1, 1], [1, 0]⟩ [(1 : ℚ)]).2.1 rfl (by decide)
  refine ⟨⟨by decide, hshort⟩, ?_⟩
  exact ((zero_frames_short_circuit id ⟨1, 2, 1, 2, false, [1, 1], [1, 0]⟩
    [(1 : ℚ)]).2.2 [] 0 4 "p" wordCharB spaceCharB (fun _ => none)
    (fun _ => none) 7 9 11 13 [] hshort).1

/-- Claim C10: the stored subsampling factor is the configured value clamped
to at least 1, so the encoded-length computation never divides by zero, even
for a configuration file supplying `subsampling_factor: 0`; and for at least
one frame the encoded length is at least 1. -/
theorem subsampling_factor_never_zero (config : GigaamConfig) :
    storedSubsamplingFactor config = max config.subsampling_factor 1 ∧
      storedSubsamplingFactor config ≠ 0 ∧
      (config.subsampling_factor = 0 → storedSubsamplingFactor config = 1) ∧
      (∀ fl : ℤ, 1 ≤ fl →
        1 ≤ encodedLen fl (storedSubsamplingFactor config)) := by
  refine ⟨rfl, ?_, ?_, ?_⟩
  · rw [storedSubsamplingFactor]
    omega
  · intro h
    rw [storedSubsamplingFactor, h]
    rfl
  · intro fl hfl
    rw [encodedLen]
    have hpos : (0 : ℤ) ≤ Int.tdiv (fl - 1) ((storedSubsamplingFactor config : ℕ) : ℤ) :=
      Int.tdiv_nonneg (by omega) (by positivity)
    rw [max_eq_left (by omega)]
    omega

/-- Witness for C10 at `subsampling_factor = 0` and one frame: the stored
factor is 1 and the encoded length is at least 1. -/
theorem subsampling_factor_never_zero_witness :
    storedSubsamplingFactor ⟨16000, 64, 320, 160, 320, false, "htk", 0, "m"⟩ = 1 ∧
      ((1 : ℤ) ≤ 1 ∧
        1 ≤ encodedLen 1
          (storedSubsamplingFactor
            ⟨16000, 64, 320, 160, 320, false, "htk", 0, "m"⟩)) :=
  ⟨(subsampling_factor_never_zero
      ⟨16000, 64, 320, 160, 320, false, "htk", 0, "m"⟩).2.2.1 rfl,
    le_refl 1,
    (subsampling_factor_never_zero
      ⟨16000, 64, 320, 160, 320, false, "htk", 0, "m"⟩).2.2.2 1 (le_refl 1)⟩

lemma stringMk_injective (d₁ d₂ : List Char) (h : (⟨d₁⟩ : String) = ⟨d₂⟩) :
    d₁ = d₂ := by
  injection h

lemma cache_fragment_injective (o o' : RuntimeOptions)
    (h : o.cache_fragment = o'.cache_fragment) : o = o' := by
  rcases o with ⟨p, m⟩
  rcases o' with ⟨p', m'⟩
  rcases p <;> rcases p' <;> rcases m <;> rcases m' <;> first
    | rfl
    | exact absurd h (by decide)

/-- Claim C5: `ensure_engine_loaded` keys the cache by model location plus
serialized runtime options; a matching key reuses the cached engine
unchanged with no load, a differing key (including an empty cache) performs
exactly one load and replaces the entry; two successive requests with the
same model and options perform no load on the second call; and changing only
the runtime options (same model location) changes the key, forcing a
reload. -/
theorem engine_cache_fingerprint {E : Type} :
    (∀ (load : Option E) (models_root model_id key : String)
        (cache : EngineCache E),
        compose_cache_key models_root model_id cache.runtime_options =
          some key →
        (cache.model_key = some key →
          ensure_engine_loaded load models_root model_id cache =
            some (cache, false)) ∧
        (cache.model_key ≠ some key → ∀ e, load = some e →
          ensure_engine_loaded load models_root model_id cache =
            some (EngineCache.mk (some key) (some e) cache.runtime_options
              cache.last_profile_summary, true))) ∧
      (∀ (load load' : Option E) (models_root model_id : String)
          (cache cache' : EngineCache E) (didLoad : Bool),
        ensure_engine_loaded load models_root model_id cache =
          some (cache', didLoad) →
        ensure_engine_loaded load' models_root model_id cache' =
          some (cache', false)) ∧
      (∀ (models_root model_id sub : String) (o o' : RuntimeOptions),
        model_subdirectory_name model_id = some sub → o ≠ o' →
        compose_cache_key models_root model_id o ≠
          compose_cache_key models_root model_id o') := by
  refine ⟨?_, ?_, ?_⟩
  · intro load models_root model_id key cache hkey
    constructor
    · intro hmatch
      rw [ensure_engine_loaded, hkey, Option.some_bind, if_pos hmatch]
    · intro hne e hload
      rw [ensure_engine_loaded, hkey, Option.some_bind, if_neg hne, hload,
        Option.some_bind]
  · intro load load' models_root model_id cache cache' didLoad h
    rw [ensure_engine_loaded] at h
    match hkey : compose_cache_key models_root model_id cache.runtime_options with
    | none => rw [hkey, Option.none_bind] at h; exact Option.noConfusion h
    | some key =>
      rw [hkey, Option.some_bind] at h
      by_cases hmatch : cache.model_key = some key
      · rw [if_pos hmatch] at h
        injection h with h
        have hc : cache' = cache := congrArg Prod.fst h.symm
        subst hc
        rw [ensure_engine_loaded, hkey, Option.some_bind, if_pos hmatch]
      · rw [if_neg hmatch] at h
        match hload : load with
        | none => rw [Option.none_bind] at h; exact Option.noConfusion h
        | some e =>
          rw [Option.some_bind] at h
          injection h with h
          have hc : cache' = EngineCache.mk (some key) (some e)
              cache.runtime_options cache.last_profile_summary :=
            congrArg Prod.fst h.symm
          subst hc
          rw [ensure_engine_loaded]
          have hkey' : compose_cache_key models_root model_id
              (EngineCache.mk (some key) (some e) cache.runtime_options
                cache.last_profile_summary).runtime_options = some key := hkey
          rw [hkey', Option.some_bind, if_pos rfl]
  · intro models_root model_id sub o o' hsub hne hcontra
    have hk1 : compose_cache_key models_root model_id o =
        some (models_root ++ "/" ++ sub ++ "?" ++ o.cache_fragment) := by
      rw [compose_cache_key, hsub]
      rfl
    have hk2 : compose_cache_key models_root model_id o' =
        some (models_root ++ "/" ++ sub ++ "?" ++ o'.cache_fragment) := by
      rw [compose_cache_key, hsub]
      rfl
    rw [hk1, hk2] at hcontra
    have h := Option.some_injective _ hcontra
    have hdata := congrArg String.data h
    rw [String.data_append, String.data_append] at hdata
    have hfrag : o.cache_fragment.data = o'.cache_fragment.data :=
      List.append_cancel_left hdata
    have : o.cache_fragment = o'.cache_fragment := by
      have h1 : o.cache_fragment = ⟨o.cache_fragment.data⟩ := rfl
      have h2 : o'.cache_fragment = ⟨o'.cache_fragment.data⟩ := rfl
      rw [h1, h2, hfrag]
    exact hne (cache_fragment_injective o o' this)

/-- Witness for C5: a fresh cache for the full-precision model id loads once,
a second identical request reuses the engine without loading, and switching
the speed profile alone changes the cache key. -/
theorem engine_cache_fingerprint_witness :
    (compose_cache_key "r" "gigaam-v3-e2e-ctc"
        (⟨RuntimeSpeedProfile.Fast, RuntimeAcceleratorMode.Cpu⟩ : RuntimeOptions) =
      some "r/gigaam-v3-e2e-ctc?profile=fast;accelerator=cpu") ∧
      ensure_engine_loaded (E := ℕ) (some 0) "r" "gigaam-v3-e2e-ctc"
          ⟨none, none, ⟨RuntimeSpeedProfile.Fast, RuntimeAcceleratorMode.Cpu⟩, ""⟩ =
        some (⟨some "r/gigaam-v3-e2e-ctc?profile=fast;accelerator=cpu", some 0,
          ⟨RuntimeSpeedProfile.Fast, RuntimeAcceleratorMode.Cpu⟩, ""⟩, true) ∧
      ensure_engine_loaded (E := ℕ) (some 0) "r" "gigaam-v3-e2e-ctc"
          ⟨some "r/gigaam-v3-e2e-ctc?profile=fast;accelerator=cpu", some 0,
            ⟨RuntimeSpeedProfile.Fast, RuntimeAcceleratorMode.Cpu⟩, ""⟩ =
        some (⟨some "r/gigaam-v3-e2e-ctc?profile=fast;accelerator=cpu", some 0,
          ⟨RuntimeSpeedProfile.Fast, RuntimeAcceleratorMode.Cpu⟩, ""⟩, false) ∧
      compose_cache_key "r" "gigaam-v3-e2e-ctc"
          (⟨RuntimeSpeedProfile.Fast, RuntimeAcceleratorMode.Cpu⟩ : RuntimeOptions) ≠
        compose_cache_key "r" "gigaam-v3-e2e-ctc"
          (⟨RuntimeSpeedProfile.Quality, RuntimeAcceleratorMode.Cpu⟩ : RuntimeOptions) := by
  have hkey : compose_cache_key "r" "gigaam-v3-e2e-ctc"
      (⟨RuntimeSpeedProfile.Fast, RuntimeAcceleratorMode.Cpu⟩ : RuntimeOptions) =
      some "r/gigaam-v3-e2e-ctc?profile=fast;accelerator=cpu" := by decide
  have hload := ((engine_cache_fingerprint (E := ℕ)).1 (some 0) "r"
    "gigaam-v3-e2e-ctc" "r/gigaam-v3-e2e-ctc?profile=fast;accelerator=cpu"
    ⟨none, none, ⟨RuntimeSpeedProfile.Fast, RuntimeAcceleratorMode.Cpu⟩, ""⟩
    hkey).2 (by decide) 0 rfl
  refine ⟨hkey, hload, ?_, ?_⟩
  · exact (engine_cache_fingerprint (E := ℕ)).2.1 (some 0) (some 0) "r"
      "gigaam-v3-e2e-ctc" _ _ _ hload
  · exact (engine_cache_fingerprint (E := ℕ)).2.2 "r" "gigaam-v3-e2e-ctc"
      "gigaam-v3-e2e-ctc" _ _ (by decide) (by decide)

end GigaamCore

